import Mathlib

/- Verification of the natural-language specification of the SPHinXsys
   level-set core against a shallow embedding of
   `src/SPHINXsys/src/shared/geometries/level_set.cpp`.

   Scalars (`Real` in the C++ source, a floating-point alias) are modelled as
   exact rationals, except for `computeHeaviside`, whose trigonometric ramp is
   modelled over the real numbers.  Vectors (`Vecd`) are modelled in the
   two-dimensional build configuration.  Fallible operations (the fatal level
   search, unchecked vector indexing) return `Option`. -/

namespace SPH

/-- Two-dimensional vector of exact rationals, modelling the C++ `Vecd`. -/
abbrev Vecd := ℚ × ℚ

/-- Componentwise multiplication of a vector by a scalar, modelling
    `Vecd * Real`. -/
def vsmul (s : ℚ) (v : Vecd) : Vecd := (s * v.1, s * v.2)

/-- Componentwise addition of two vectors. -/
def vadd (v w : Vecd) : Vecd := (v.1 + w.1, v.2 + w.2)

/-- External collaborator `Shape` (out of scope for the core, per the spec):
    answers signed distance, normal direction and containment at a position. -/
structure Shape where
  findSignedDistance : Vecd → ℚ
  findNormalDirection : Vecd → Vecd
  checkContain : Vecd → Bool

/-- Modelled from the spec: the small positive comparison tolerance `Eps` used
    by the level search at level_set.cpp:320.  Its defining header is not among
    the excerpted sources; the library sets it to 2.22045e-16.  The theorems
    below are stated for an arbitrary positive tolerance and use this value
    only in concrete evaluations. -/
def Eps : ℚ := 222045 / 10 ^ 21

/-- Single-resolution `LevelSet` as seen by the resolution-dependent probes:
    its `global_h_ratio_` and, per position, the values that the underlying
    `probeMesh` interpolation yields for the kernel-weight and kernel-gradient
    fields.  The interpolation itself lives in `mesh_with_data_packages.hpp`,
    outside the excerpted sources, so its pointwise result is abstracted as
    per-level data. -/
structure LevelSet where
  global_h_ratio : ℚ
  kernel_weight_mesh : Vecd → ℚ
  kernel_gradient_mesh : Vecd → Vecd

/-- LevelSet::probeKernelIntegral (level_set.cpp:140-144): resolves the
    position through `probeMesh` over the kernel-weight addresses; the
    `h_ratio` argument does not occur in the body. -/
def LevelSet.probeKernelIntegral (ls : LevelSet) (position : Vecd) (h_ratio : ℚ) : ℚ :=
  ls.kernel_weight_mesh position

/-- LevelSet::probeKernelGradientIntegral (level_set.cpp:146-150): resolves the
    position through `probeMesh` over the kernel-gradient addresses; the
    `h_ratio` argument does not occur in the body. -/
def LevelSet.probeKernelGradientIntegral (ls : LevelSet) (position : Vecd) (h_ratio : ℚ) :
    Vecd :=
  ls.kernel_gradient_mesh position

/-- MultilevelLevelSet (level_set.cpp:311-315): an ordered sequence of levels;
    per the spec's data model, `total_levels_` is the length of the sequence
    and the levels' resolution ratios increase with the level index. -/
structure MultilevelLevelSet where
  mesh_levels : List LevelSet

/-- The stored `total_levels_`, equal to the length of the level sequence. -/
def MultilevelLevelSet.total_levels (m : MultilevelLevelSet) : ℕ :=
  m.mesh_levels.length

/-- The levels' `global_h_ratio_` values, in level order. -/
def MultilevelLevelSet.levelRatios (m : MultilevelLevelSet) : List ℚ :=
  m.mesh_levels.map LevelSet.global_h_ratio

/-- Countdown loop of MultilevelLevelSet::getMeshLevel (level_set.cpp:317-327):
    `level` runs from `total_levels_` down to 1 and the loop returns
    `level - 1` as soon as
    `h_ratio - mesh_levels_[level - 1]->global_h_ratio_ > -Eps`; falling
    through the loop reaches `exit(1)`, modelled as `none`.  Every call made
    by `getMeshLevel` indexes the ratio list in bounds, so the `getD` default
    is never read. -/
def getMeshLevelLoop (eps h_ratio : ℚ) (ratios : List ℚ) : ℕ → Option ℕ
  | 0 => none
  | level + 1 =>
    if h_ratio - ratios.getD level 0 > -eps then some level
    else getMeshLevelLoop eps h_ratio ratios level

/-- MultilevelLevelSet::getMeshLevel (level_set.cpp:317-327), parametrised by
    the comparison tolerance `eps` (the source uses the global `Eps`). -/
def MultilevelLevelSet.getMeshLevel (eps : ℚ) (m : MultilevelLevelSet) (h_ratio : ℚ) :
    Option ℕ :=
  getMeshLevelLoop eps h_ratio m.levelRatios m.total_levels

/-- MultilevelLevelSet::probeKernelIntegral (level_set.cpp:357-366).  The
    source indexes `mesh_levels_[coarse_level]` and
    `mesh_levels_[coarse_level + 1]` without a bounds check; indexing past the
    end of the vector is undefined behaviour and is modelled as `none`.  The
    one-argument inner call `probeKernelIntegral(position)` discards its
    resolution argument (level_set.cpp:140-144), so any value may stand for
    the defaulted argument. -/
def MultilevelLevelSet.probeKernelIntegral (eps : ℚ) (m : MultilevelLevelSet)
    (position : Vecd) (h_ratio : ℚ) : Option ℚ :=
  (m.getMeshLevel eps h_ratio).bind fun coarse_level =>
    (m.mesh_levels.get? coarse_level).bind fun coarse =>
      (m.mesh_levels.get? (coarse_level + 1)).bind fun fine =>
        let alpha := (fine.global_h_ratio - h_ratio) /
          (fine.global_h_ratio - coarse.global_h_ratio)
        some (alpha * coarse.probeKernelIntegral position 1 +
          (1 - alpha) * fine.probeKernelIntegral position 1)

/-- MultilevelLevelSet::probeKernelGradientIntegral (level_set.cpp:368-377),
    modelled exactly like `MultilevelLevelSet.probeKernelIntegral`. -/
def MultilevelLevelSet.probeKernelGradientIntegral (eps : ℚ) (m : MultilevelLevelSet)
    (position : Vecd) (h_ratio : ℚ) : Option Vecd :=
  (m.getMeshLevel eps h_ratio).bind fun coarse_level =>
    (m.mesh_levels.get? coarse_level).bind fun coarse =>
      (m.mesh_levels.get? (coarse_level + 1)).bind fun fine =>
        let alpha := (fine.global_h_ratio - h_ratio) /
          (fine.global_h_ratio - coarse.global_h_ratio)
        some (vadd (vsmul alpha (coarse.probeKernelGradientIntegral position 1))
          (vsmul (1 - alpha) (fine.probeKernelGradientIntegral position 1)))

/-- Which package binding LevelSet::initializeDataInACell (level_set.cpp:239-257)
    gives a cell: a freshly created package flagged core, or one of the two
    singular packages `singular_data_pkgs_addrs_[0]` / `[1]`. -/
inductive CellBinding
  | corePkg
  | singularPkg0
  | singularPkg1
deriving DecidableEq

/-- Modelled from the spec: `getMaxAbsoluteElement` (defined outside the
    excerpted sources) is the maximum absolute component of a vector. -/
def getMaxAbsoluteElement (v : Vecd) : ℚ := max |v.1| |v.2|

/-- LevelSet::initializeDataInACell (level_set.cpp:239-257), reduced to the
    binding decision for the cell at `cell_position` (the c++ code additionally
    pushes a created package onto `core_data_pkgs_` and records the cell's
    package address, which does not affect which binding the cell gets). -/
def LevelSet.initializeDataInACell (shape : Shape) (grid_spacing : ℚ)
    (cell_position : Vecd) : CellBinding :=
  let signed_distance := shape.findSignedDistance cell_position
  let normal_direction := shape.findNormalDirection cell_position
  let measure := getMaxAbsoluteElement (vsmul signed_distance normal_direction)
  if measure < grid_spacing then CellBinding.corePkg
  else if shape.checkContain cell_position then CellBinding.singularPkg0
  else CellBinding.singularPkg1

/-- LevelSet constructor (level_set.cpp:63-74): the uniform signed-distance
    values of the two singular packages, index 0 created with
    `-far_field_distance` and index 1 with `+far_field_distance`, where
    `far_field_distance = grid_spacing_ * buffer_width_`. -/
def LevelSet.singularPhiValues (grid_spacing : ℚ) (buffer_width : ℕ) : List ℚ :=
  [-(grid_spacing * (buffer_width : ℚ)), grid_spacing * (buffer_width : ℚ)]

/-- LevelSet::probeIsWithinMeshBound (level_set.cpp:212-224), expressed on the
    containing cell index: the source maps the position to its cell via
    `CellIndexFromPosition` (defined outside the excerpted sources) and then
    inspects only that cell index against `number_of_cells_`, one coordinate at
    a time, clearing an initially-true flag.  `cell_pos` and `number_of_cells`
    list the components of the two index vectors; the `size_t` subtraction
    `number_of_cells_[i] - 2` matches truncated `ℕ` subtraction whenever
    `2 ≤ number_of_cells_[i]`. -/
def LevelSet.probeIsWithinMeshBound (cell_pos number_of_cells : List ℕ) : Bool :=
  (List.zip cell_pos number_of_cells).foldl
    (fun is_bounded p =>
      let b1 := if p.1 < 2 then false else is_bounded
      if p.1 > p.2 - 2 then false else b1)
    true

/-- Package collections a cleaning pass iterates over. -/
inductive PkgCollection
  | coreDataPkgs
  | innerDataPkgs
deriving DecidableEq

/-- The per-package operations scheduled by the interface-cleaning entry
    points of LevelSet (level_set.cpp:101-210). -/
inductive PassKind
  | markNearInterfacePass
  | redistancePass
  | reinitStepPass
  | updateNormalPass
  | updateKernelPass
deriving DecidableEq

/-- One bulk-synchronous pass: a per-package operation fanned out over one of
    the two package collections. -/
structure MeshPass where
  kind : PassKind
  over : PkgCollection
deriving DecidableEq

/-- LevelSet::markNearInterface (level_set.cpp:184-189): one parallel pass of
    `markNearInterface(small_shift_factor_)` over `core_data_pkgs_`. -/
def LevelSet.markNearInterfaceSchedule : List MeshPass :=
  [⟨PassKind.markNearInterfacePass, PkgCollection.coreDataPkgs⟩]

/-- LevelSet::redistanceInterface (level_set.cpp:196-201): one parallel pass
    over `core_data_pkgs_`. -/
def LevelSet.redistanceInterfaceSchedule : List MeshPass :=
  [⟨PassKind.redistancePass, PkgCollection.coreDataPkgs⟩]

/-- LevelSet::reinitializeLevelSet (level_set.cpp:176-182): a `for` loop of 50
    iterations, each one parallel relaxation sweep over `inner_data_pkgs_`;
    the iteration count is fixed and no state is consulted between sweeps. -/
def LevelSet.reinitializeLevelSetSchedule : List MeshPass :=
  (List.range 50).foldl
    (fun sweeps _i => sweeps ++ [⟨PassKind.reinitStepPass, PkgCollection.innerDataPkgs⟩])
    []

/-- LevelSet::updateNormalDirection (level_set.cpp:101-106): one parallel pass
    over `inner_data_pkgs_`. -/
def LevelSet.updateNormalDirectionSchedule : List MeshPass :=
  [⟨PassKind.updateNormalPass, PkgCollection.innerDataPkgs⟩]

/-- LevelSet::updateKernelIntegrals (level_set.cpp:115-120): one parallel pass
    over `inner_data_pkgs_`. -/
def LevelSet.updateKernelIntegralsSchedule : List MeshPass :=
  [⟨PassKind.updateKernelPass, PkgCollection.innerDataPkgs⟩]

/-- LevelSet::cleanInterface (level_set.cpp:203-210): the five member calls in
    source order. -/
def LevelSet.cleanInterfaceSchedule : List MeshPass :=
  LevelSet.markNearInterfaceSchedule ++ LevelSet.redistanceInterfaceSchedule ++
    LevelSet.reinitializeLevelSetSchedule ++ LevelSet.updateNormalDirectionSchedule ++
    LevelSet.updateKernelIntegralsSchedule

/-- BaseLevelSet::computeHeaviside (level_set.cpp:52-61).  The C++ `Real` is a
    floating-point double evaluating `sin`; the arithmetic is modelled over the
    real numbers. -/
noncomputable def BaseLevelSet.computeHeaviside (phi half_width : ℝ) : ℝ :=
  let normalized_phi := phi / half_width
  let heaviside : ℝ := 0
  let heaviside' :=
    if phi < half_width ∧ -half_width < phi then
      (0.5 + 0.5 * normalized_phi) + 0.5 * Real.sin (Real.pi * normalized_phi) / Real.pi
    else heaviside
  if normalized_phi > 1 then 1 else heaviside'

/-- Concrete level of ratio 1 used in counterexamples. -/
def exLevel0 : LevelSet := ⟨1, fun _ => 10, fun _ => (3, 4)⟩

/-- Concrete level of ratio 2 used in counterexamples. -/
def exLevel1 : LevelSet := ⟨2, fun _ => 20, fun _ => (5, 6)⟩

/-- Concrete two-level hierarchy with ratios 1 < 2, used in counterexamples. -/
def exMultilevel : MultilevelLevelSet := ⟨[exLevel0, exLevel1]⟩

/-- Concrete shape used in witnesses: constant signed distance 5, constant
    normal (1, 0), containing nothing. -/
def exShape : Shape := ⟨fun _ => 5, fun _ => (1, 0), fun _ => false⟩

/-- Helper: the level loop yields `none` exactly when no level below the start
    index passes the tolerance test. -/
theorem getMeshLevelLoop_eq_none_iff (eps h_ratio : ℚ) (ratios : List ℚ) (n : ℕ) :
    getMeshLevelLoop eps h_ratio ratios n = none ↔
      ∀ l, l < n → ¬(h_ratio - ratios.getD l 0 > -eps) := by
  induction n with
  | zero =>
    exact iff_of_true rfl (fun l hl => absurd hl (Nat.not_lt_zero l))
  | succ m ih =>
    by_cases h : h_ratio - ratios.getD m 0 > -eps
    · rw [getMeshLevelLoop, if_pos h]
      constructor
      · intro heq; exact absurd heq (by simp)
      · intro hall; exact absurd h (hall m (Nat.lt_succ_self m))
    · rw [getMeshLevelLoop, if_neg h, ih]
      constructor
      · intro hall l hl
        rcases Nat.lt_succ_iff_lt_or_eq.mp hl with h1 | h1
        · exact hall l h1
        · subst h1; exact h
      · intro hall l hl
        exact hall l (Nat.lt_succ_of_lt hl)

/-- Helper: the level loop returns index `i` when level `i` passes the
    tolerance test and every level strictly between `i` and the start index
    fails it. -/
theorem getMeshLevelLoop_eq_some (eps h_ratio : ℚ) (ratios : List ℚ) (n i : ℕ)
    (hin : i < n) (hi : h_ratio - ratios.getD i 0 > -eps)
    (habove : ∀ j, i < j → j < n → ¬(h_ratio - ratios.getD j 0 > -eps)) :
    getMeshLevelLoop eps h_ratio ratios n = some i := by
  induction n with
  | zero => exact absurd hin (Nat.not_lt_zero i)
  | succ m ih =>
    by_cases hm : i = m
    · subst hm
      rw [getMeshLevelLoop, if_pos hi]
    · have hmc : ¬(h_ratio - ratios.getD m 0 > -eps) := habove m (by omega) (by omega)
      rw [getMeshLevelLoop, if_neg hmc]
      exact ih (by omega) (fun j hj1 hj2 => habove j hj1 (by omega))

/-- Helper: `levelRatios` has one entry per level. -/
theorem levelRatios_length (m : MultilevelLevelSet) :
    m.levelRatios.length = m.total_levels := by
  simp [MultilevelLevelSet.levelRatios, MultilevelLevelSet.total_levels]

/-- Helper: reading `levelRatios` at an in-range index gives that level's
    `global_h_ratio_`. -/
theorem levelRatios_getD (m : MultilevelLevelSet) (l : ℕ)
    (hl : l < m.mesh_levels.length) :
    m.levelRatios.getD l 0 = (m.mesh_levels.get ⟨l, hl⟩).global_h_ratio := by
  rw [MultilevelLevelSet.levelRatios,
    List.getD_eq_getElem _ _ (by simpa using hl)]
  simp

/-- Helper: a list whose adjacent entries grow is monotone in `getD` over
    in-range indices. -/
theorem getD_mono_of_adjacent_le (r : List ℚ)
    (hadj : ∀ j, j + 1 < r.length → r.getD j 0 ≤ r.getD (j + 1) 0) (a : ℕ) :
    ∀ b, a ≤ b → b < r.length → r.getD a 0 ≤ r.getD b 0 := by
  intro b
  induction b with
  | zero =>
    intro hab _
    have ha : a = 0 := Nat.le_zero.mp hab
    subst ha; exact le_refl _
  | succ k ih =>
    intro hab hb
    by_cases hak : a = k + 1
    · subst hak; exact le_refl _
    · exact le_trans (ih (by omega) (by omega)) (hadj k hb)

/-- Helper: read a `Chain'` hypothesis at adjacent `getD` positions. -/
theorem chain'_getD {R : ℚ → ℚ → Prop} {r : List ℚ} (h : List.Chain' R r) :
    ∀ j, j + 1 < r.length → R (r.getD j 0) (r.getD (j + 1) 0) := by
  intro j hj
  rw [List.getD_eq_getElem _ _ (by omega : j < r.length),
    List.getD_eq_getElem _ _ hj]
  simpa using List.chain'_iff_get.mp h j (by omega)

/-- C2 (amended): the fatal configuration error (`exit(1)`, modelled `none`)
    occurs exactly when the requested ratio lies at least `eps` BELOW every
    configured level's ratio — the opposite direction from the claim; any
    other request, including one exceeding every level's ratio, returns a
    level index. -/
theorem getMeshLevel_fatal_iff_below_all (eps : ℚ) (m : MultilevelLevelSet)
    (h_ratio : ℚ) :
    m.getMeshLevel eps h_ratio = none ↔
      ∀ lvl ∈ m.mesh_levels, h_ratio ≤ lvl.global_h_ratio - eps := by
  rw [MultilevelLevelSet.getMeshLevel, getMeshLevelLoop_eq_none_iff]
  constructor
  · intro hall lvl hmem
    rcases List.mem_iff_get.mp hmem with ⟨⟨l, hl⟩, rfl⟩
    have h1 := hall l hl
    rw [levelRatios_getD m l hl] at h1
    linarith
  · intro hall l hl
    rw [levelRatios_getD m l hl]
    have h1 := hall _ (List.get_mem m.mesh_levels l hl)
    linarith

/-- Helper: the tolerance-shifted bracket rule actually implemented by the
    level search, shared by the level-selection and blending theorems. -/
theorem getMeshLevel_select (eps : ℚ) (m : MultilevelLevelSet) (target : ℚ)
    (i : ℕ)
    (hsort : List.Chain' (· < ·) m.levelRatios)
    (hi : i < m.total_levels)
    (hlow : m.levelRatios.getD i 0 - eps < target)
    (hhigh : i + 1 < m.total_levels →
      target ≤ m.levelRatios.getD (i + 1) 0 - eps) :
    m.getMeshLevel eps target = some i := by
  have hlen : m.levelRatios.length = m.total_levels := levelRatios_length m
  apply getMeshLevelLoop_eq_some eps target m.levelRatios m.total_levels i hi
    (by linarith)
  intro j hij hjn
  have hj : j < m.levelRatios.length := by omega
  have hmono : m.levelRatios.getD (i + 1) 0 ≤ m.levelRatios.getD j 0 :=
    getD_mono_of_adjacent_le m.levelRatios
      (fun k hk => le_of_lt (chain'_getD hsort k hk)) (i + 1) j hij hj
  have hhi := hhigh (by omega)
  intro hcon
  linarith

/-- C1 (amended): for strictly increasing level ratios, `getMeshLevel` follows
    the bracket rule only up to the comparison tolerance `eps`: it returns
    level `i` whenever `r_i - eps < target` and, if a finer level exists,
    `target ≤ r_{i+1} - eps`; so `r_i ≤ target < r_{i+1}` guarantees level `i`
    only when `target` stays at least `eps` below `r_{i+1}`, and the finest
    level is returned for every `target > r_finest - eps`. -/
theorem getMeshLevel_bracket (eps : ℚ) (m : MultilevelLevelSet) (target : ℚ)
    (i : ℕ)
    (hsort : List.Chain' (· < ·) m.levelRatios)
    (hi : i < m.total_levels)
    (hlow : m.levelRatios.getD i 0 - eps < target)
    (hhigh : i + 1 < m.total_levels →
      target ≤ m.levelRatios.getD (i + 1) 0 - eps) :
    m.getMeshLevel eps target = some i :=
  getMeshLevel_select eps m target i hsort hi hlow hhigh

/-- Witness for `getMeshLevel_bracket`: a two-level hierarchy with ratios 1
    and 2, tolerance 1/4, target 1 selects level 0. -/
theorem getMeshLevel_bracket_witness :
    (List.Chain' (· < ·) exMultilevel.levelRatios ∧
        0 < exMultilevel.total_levels ∧
        exMultilevel.levelRatios.getD 0 0 - (1 : ℚ) / 4 < 1 ∧
        (0 + 1 < exMultilevel.total_levels →
          (1 : ℚ) ≤ exMultilevel.levelRatios.getD (0 + 1) 0 - (1 : ℚ) / 4)) ∧
      MultilevelLevelSet.getMeshLevel ((1 : ℚ) / 4) exMultilevel 1 = some 0 := by
  have hs : List.Chain' (· < ·) exMultilevel.levelRatios := by
    show List.Chain' (· < ·) [(1 : ℚ), 2]
    norm_num [List.chain'_cons]
  have h0 : 0 < exMultilevel.total_levels := by
    show 0 < 2
    norm_num
  have hlow : exMultilevel.levelRatios.getD 0 0 - (1 : ℚ) / 4 < 1 := by
    show (1 : ℚ) - 1 / 4 < 1
    norm_num
  have hhigh : 0 + 1 < exMultilevel.total_levels →
      (1 : ℚ) ≤ exMultilevel.levelRatios.getD (0 + 1) 0 - (1 : ℚ) / 4 := by
    intro _
    show (1 : ℚ) ≤ 2 - 1 / 4
    norm_num
  exact ⟨⟨hs, h0, hlow, hhigh⟩,
    getMeshLevel_bracket ((1 : ℚ) / 4) exMultilevel 1 0 hs h0 hlow hhigh⟩

/-- C1 counterexample: with levels of ratios 1 and 2, the target `2 - Eps / 2`
    satisfies `r_0 ≤ target < r_1`, so the claimed rule demands level 0, but
    `getMeshLevel` returns level 1: the comparison tolerance `Eps` shifts the
    bracket's upper boundary down by `Eps`. -/
theorem getMeshLevel_exact_bracket_cex :
    (exLevel0.global_h_ratio ≤ 2 - Eps / 2 ∧
        2 - Eps / 2 < exLevel1.global_h_ratio) ∧
      MultilevelLevelSet.getMeshLevel Eps exMultilevel (2 - Eps / 2) = some 1 ∧
      MultilevelLevelSet.getMeshLevel Eps exMultilevel (2 - Eps / 2) ≠ some 0 := by
  have heval : MultilevelLevelSet.getMeshLevel Eps exMultilevel (2 - Eps / 2) =
      some 1 := by
    rw [show MultilevelLevelSet.getMeshLevel Eps exMultilevel (2 - Eps / 2) =
        (if 2 - Eps / 2 - 2 > -Eps then some 1
          else if 2 - Eps / 2 - 1 > -Eps then some 0 else none) from rfl]
    rw [if_pos (by norm_num [Eps])]
  refine ⟨⟨?_, ?_⟩, heval, ?_⟩
  · show (1 : ℚ) ≤ 2 - Eps / 2
    norm_num [Eps]
  · show 2 - Eps / 2 < (2 : ℚ)
    norm_num [Eps]
  · rw [heval]
    simp

/-- C2 counterexample: a requested ratio 3 exceeding every configured level's
    ratio (1 and 2) triggers no error and returns the finest level, while the
    ratio 1/2, which exceeds none of them, is exactly the case that reaches
    `exit(1)`. -/
theorem getMeshLevel_exceeds_no_error_cex :
    (exLevel0.global_h_ratio < 3 ∧ exLevel1.global_h_ratio < 3 ∧
        MultilevelLevelSet.getMeshLevel Eps exMultilevel 3 = some 1) ∧
      ((1 : ℚ) / 2 < exLevel0.global_h_ratio ∧
        (1 : ℚ) / 2 < exLevel1.global_h_ratio ∧
        MultilevelLevelSet.getMeshLevel Eps exMultilevel (1 / 2) = none) := by
  refine ⟨⟨?_, ?_, ?_⟩, ?_, ?_, ?_⟩
  · show (1 : ℚ) < 3
    norm_num
  · show (2 : ℚ) < 3
    norm_num
  · rw [show MultilevelLevelSet.getMeshLevel Eps exMultilevel 3 =
        (if (3 : ℚ) - 2 > -Eps then some 1
          else if (3 : ℚ) - 1 > -Eps then some 0 else none) from rfl]
    rw [if_pos (by norm_num [Eps])]
  · show (1 : ℚ) / 2 < 1
    norm_num
  · show (1 : ℚ) / 2 < 2
    norm_num
  · rw [show MultilevelLevelSet.getMeshLevel Eps exMultilevel (1 / 2) =
        (if (1 : ℚ) / 2 - 2 > -Eps then some 1
          else if (1 : ℚ) / 2 - 1 > -Eps then some 0 else none) from rfl]
    rw [if_neg (by norm_num [Eps]), if_neg (by norm_num [Eps])]

/-- C4 (confirmed): `cleanInterface` is exactly mark-near-interface over core
    packages, then redistance over core packages, then 50 relaxation sweeps
    over all inner packages with no convergence check, then the normal and
    kernel-integral refreshes over inner packages, in that order. -/
theorem cleanInterface_pipeline :
    LevelSet.cleanInterfaceSchedule =
      [⟨PassKind.markNearInterfacePass, PkgCollection.coreDataPkgs⟩,
          ⟨PassKind.redistancePass, PkgCollection.coreDataPkgs⟩] ++
        List.replicate 50 ⟨PassKind.reinitStepPass, PkgCollection.innerDataPkgs⟩ ++
        [⟨PassKind.updateNormalPass, PkgCollection.innerDataPkgs⟩,
          ⟨PassKind.updateKernelPass, PkgCollection.innerDataPkgs⟩] := by
  decide

/-- Helper: the bound-check fold clears the flag independently per coordinate. -/
theorem meshBound_foldl (l : List (ℕ × ℕ)) :
    ∀ b : Bool,
      l.foldl
        (fun is_bounded p =>
          let b1 := if p.1 < 2 then false else is_bounded
          if p.1 > p.2 - 2 then false else b1) b =
      (b && l.all (fun p => !decide (p.1 < 2) && !decide (p.1 > p.2 - 2))) := by
  induction l with
  | nil =>
    intro b
    simp
  | cons p t ih =>
    intro b
    rw [List.foldl_cons, ih, List.all_cons]
    by_cases h1 : p.1 < 2 <;> by_cases h2 : p.1 > p.2 - 2 <;>
      simp [h1, h2, Bool.and_assoc]

/-- Helper: the bound check passes exactly when every coordinate's cell index
    lies in the closed band from 2 to `number_of_cells - 2`. -/
theorem probeIsWithinMeshBound_true_iff (cell_pos number_of_cells : List ℕ)
    (hlen : cell_pos.length = number_of_cells.length) :
    LevelSet.probeIsWithinMeshBound cell_pos number_of_cells = true ↔
      ∀ i, i < cell_pos.length →
        2 ≤ cell_pos.getD i 0 ∧
          cell_pos.getD i 0 ≤ number_of_cells.getD i 0 - 2 := by
  rw [LevelSet.probeIsWithinMeshBound, meshBound_foldl, Bool.true_and,
    List.all_eq_true]
  constructor
  · intro hall i hi
    have hi2 : i < number_of_cells.length := by omega
    have hiz : i < (cell_pos.zip number_of_cells).length := by
      rw [List.length_zip]
      omega
    have h := hall _ (List.getElem_mem hiz)
    rw [List.getElem_zip] at h
    simp only [Bool.and_eq_true, Bool.not_eq_true', decide_eq_false_iff_not] at h
    rw [List.getD_eq_getElem _ _ hi, List.getD_eq_getElem _ _ hi2]
    omega
  · intro hall p hp
    rcases List.mem_iff_getElem.mp hp with ⟨i, hiz, hip⟩
    have hi : i < cell_pos.length := by
      rw [List.length_zip] at hiz
      omega
    have hi2 : i < number_of_cells.length := by omega
    rw [List.getElem_zip] at hip
    have h := hall i hi
    rw [List.getD_eq_getElem _ _ hi, List.getD_eq_getElem _ _ hi2] at h
    subst hip
    simp only [Bool.and_eq_true, Bool.not_eq_true', decide_eq_false_iff_not]
    omega

/-- C3 (amended): `probeIsWithinMeshBound` returns false exactly when some
    component of the containing cell index is 0 or 1, or at least
    `number_of_cells_[i] - 1`: the safety margin is two cells at the lower
    grid edge but only one cell at the upper grid edge, so a cell at index
    `number_of_cells_[i] - 2` is still reported within bound. -/
theorem probeIsWithinMeshBound_false_iff (cell_pos number_of_cells : List ℕ)
    (hlen : cell_pos.length = number_of_cells.length)
    (hcells : ∀ n ∈ number_of_cells, 2 ≤ n) :
    LevelSet.probeIsWithinMeshBound cell_pos number_of_cells = false ↔
      ∃ i, i < cell_pos.length ∧
        (cell_pos.getD i 0 < 2 ∨
          number_of_cells.getD i 0 - 1 ≤ cell_pos.getD i 0) := by
  rw [show (LevelSet.probeIsWithinMeshBound cell_pos number_of_cells = false) ↔
      ¬(LevelSet.probeIsWithinMeshBound cell_pos number_of_cells = true) from by
    cases LevelSet.probeIsWithinMeshBound cell_pos number_of_cells <;> simp]
  rw [probeIsWithinMeshBound_true_iff cell_pos number_of_cells hlen]
  push_neg
  constructor
  · rintro ⟨i, hi, hfail⟩
    have hi2 : i < number_of_cells.length := by omega
    have h2 : 2 ≤ number_of_cells.getD i 0 := by
      rw [List.getD_eq_getElem _ _ hi2]
      exact hcells _ (List.getElem_mem hi2)
    by_cases hc : cell_pos.getD i 0 < 2
    · exact ⟨i, hi, Or.inl hc⟩
    · have h3 := hfail (by omega)
      exact ⟨i, hi, Or.inr (by omega)⟩
  · rintro ⟨i, hi, hor⟩
    have hi2 : i < number_of_cells.length := by omega
    have h2 : 2 ≤ number_of_cells.getD i 0 := by
      rw [List.getD_eq_getElem _ _ hi2]
      exact hcells _ (List.getElem_mem hi2)
    exact ⟨i, hi, fun hge => by omega⟩

/-- Witness for `probeIsWithinMeshBound_false_iff`: a 2-D grid of 8 cells per
    direction with the containing cell at index (0, 3). -/
theorem probeIsWithinMeshBound_false_iff_witness :
    ([0, 3] : List ℕ).length = ([8, 8] : List ℕ).length ∧
      (∀ n ∈ ([8, 8] : List ℕ), 2 ≤ n) ∧
      (LevelSet.probeIsWithinMeshBound [0, 3] [8, 8] = false ↔
        ∃ i, i < ([0, 3] : List ℕ).length ∧
          (([0, 3] : List ℕ).getD i 0 < 2 ∨
            ([8, 8] : List ℕ).getD i 0 - 1 ≤ ([0, 3] : List ℕ).getD i 0)) :=
  ⟨rfl, by decide, probeIsWithinMeshBound_false_iff [0, 3] [8, 8] rfl (by decide)⟩

/-- C3 counterexample: in a grid of 8 cells per direction, the cell (3, 6) has
    a component equal to `number_of_cells - 2`, which the claim places out of
    bound, yet the code reports the position within bound. -/
theorem probeIsWithinMeshBound_margin_cex :
    LevelSet.probeIsWithinMeshBound [3, 6] [8, 8] = true ∧ (6 : ℕ) = 8 - 2 := by
  decide

/-- C9 (confirmed): on a single-resolution LevelSet the two
    resolution-dependent probes discard the `h_ratio` argument, so their
    results are independent of it. -/
theorem probeKernel_h_ratio_independent (ls : LevelSet) (position : Vecd)
    (h1 h2 : ℚ) :
    ls.probeKernelIntegral position h1 = ls.probeKernelIntegral position h2 ∧
      ls.probeKernelGradientIntegral position h1 =
        ls.probeKernelGradientIntegral position h2 :=
  ⟨rfl, rfl⟩

/-- C6 (confirmed): a cell is bound to a freshly created package flagged core
    exactly when the single-spacing proximity test holds: the maximum absolute
    component of the shape normal multiplied by the shape signed distance is
    strictly below one grid spacing. -/
theorem initializeDataInACell_core_iff (shape : Shape) (grid_spacing : ℚ)
    (cell_position : Vecd) :
    LevelSet.initializeDataInACell shape grid_spacing cell_position =
        CellBinding.corePkg ↔
      getMaxAbsoluteElement
          (vsmul (shape.findSignedDistance cell_position)
            (shape.findNormalDirection cell_position)) < grid_spacing := by
  by_cases h : getMaxAbsoluteElement
      (vsmul (shape.findSignedDistance cell_position)
        (shape.findNormalDirection cell_position)) < grid_spacing
  · simp [LevelSet.initializeDataInACell, h]
  · by_cases hcon : shape.checkContain cell_position <;>
      simp [LevelSet.initializeDataInACell, h, hcon]

/-- C7 (confirmed): a cell failing the core proximity test is bound to one of
    the two singular packages by the containment test: index 0, created with
    the negative far-field value `-(grid_spacing * buffer_width)`, when the
    shape contains the cell position, and otherwise index 1 with the positive
    far-field value — far-field phi is negative inside and positive outside. -/
theorem initializeDataInACell_singular_sign (shape : Shape) (grid_spacing : ℚ)
    (buffer_width : ℕ) (cell_position : Vecd)
    (hgs : 0 < grid_spacing) (hbw : 0 < buffer_width)
    (hfar : ¬getMaxAbsoluteElement
        (vsmul (shape.findSignedDistance cell_position)
          (shape.findNormalDirection cell_position)) < grid_spacing) :
    (shape.checkContain cell_position = true →
        LevelSet.initializeDataInACell shape grid_spacing cell_position =
          CellBinding.singularPkg0) ∧
      (shape.checkContain cell_position = false →
        LevelSet.initializeDataInACell shape grid_spacing cell_position =
          CellBinding.singularPkg1) ∧
      (LevelSet.singularPhiValues grid_spacing buffer_width).getD 0 0 =
        -(grid_spacing * (buffer_width : ℚ)) ∧
      (LevelSet.singularPhiValues grid_spacing buffer_width).getD 0 0 < 0 ∧
      (LevelSet.singularPhiValues grid_spacing buffer_width).getD 1 0 =
        grid_spacing * (buffer_width : ℚ) ∧
      0 < (LevelSet.singularPhiValues grid_spacing buffer_width).getD 1 0 := by
  have hpos : 0 < grid_spacing * (buffer_width : ℚ) :=
    mul_pos hgs (by exact_mod_cast hbw)
  refine ⟨?_, ?_, rfl, ?_, rfl, ?_⟩
  · intro hcon
    simp [LevelSet.initializeDataInACell, hfar, hcon]
  · intro hcon
    simp [LevelSet.initializeDataInACell, hfar, hcon]
  · show -(grid_spacing * (buffer_width : ℚ)) < 0
    exact neg_lt_zero.mpr hpos
  · show 0 < grid_spacing * (buffer_width : ℚ)
    exact hpos

/-- Witness for `initializeDataInACell_singular_sign`: a far cell (signed
    distance 5, unit normal, spacing 1, buffer width 4) of a shape containing
    nothing. -/
theorem initializeDataInACell_singular_sign_witness :
    ((0 : ℚ) < 1 ∧ 0 < 4 ∧
        ¬getMaxAbsoluteElement
            (vsmul (exShape.findSignedDistance (0, 0))
              (exShape.findNormalDirection (0, 0))) < 1) ∧
      ((exShape.checkContain (0, 0) = true →
          LevelSet.initializeDataInACell exShape 1 (0, 0) =
            CellBinding.singularPkg0) ∧
        (exShape.checkContain (0, 0) = false →
          LevelSet.initializeDataInACell exShape 1 (0, 0) =
            CellBinding.singularPkg1) ∧
        (LevelSet.singularPhiValues 1 4).getD 0 0 = -((1 : ℚ) * ((4 : ℕ) : ℚ)) ∧
        (LevelSet.singularPhiValues 1 4).getD 0 0 < 0 ∧
        (LevelSet.singularPhiValues 1 4).getD 1 0 = (1 : ℚ) * ((4 : ℕ) : ℚ) ∧
        0 < (LevelSet.singularPhiValues 1 4).getD 1 0) := by
  have hfar : ¬getMaxAbsoluteElement
      (vsmul (exShape.findSignedDistance (0, 0))
        (exShape.findNormalDirection (0, 0))) < 1 := by
    show ¬getMaxAbsoluteElement (vsmul 5 (1, 0)) < 1
    norm_num [getMaxAbsoluteElement, vsmul]
  exact ⟨⟨by norm_num, by norm_num, hfar⟩,
    initializeDataInACell_singular_sign exShape 1 4 (0, 0) (by norm_num)
      (by norm_num) hfar⟩

/-- C5 (amended): probing `probeKernelIntegral` or
    `probeKernelGradientIntegral` at a resolution ratio exactly equal to a
    level's own `global_h_ratio_` returns that level's unblended single-level
    probe value (the blend weight degenerates to 1) — for every level except
    the finest; at the finest level's own ratio the code instead indexes one
    past the end of the level sequence. -/
theorem probeKernelIntegral_at_level_ratio (eps : ℚ) (m : MultilevelLevelSet)
    (k : ℕ) (lk : LevelSet) (position : Vecd)
    (heps : 0 < eps)
    (hgap : List.Chain' (fun a b => a + eps ≤ b) m.levelRatios)
    (hk1 : k + 1 < m.total_levels)
    (hlk : m.mesh_levels.get? k = some lk) :
    MultilevelLevelSet.probeKernelIntegral eps m position lk.global_h_ratio =
        some (lk.probeKernelIntegral position lk.global_h_ratio) ∧
      MultilevelLevelSet.probeKernelGradientIntegral eps m position
          lk.global_h_ratio =
        some (lk.probeKernelGradientIntegral position lk.global_h_ratio) := by
  rcases List.get?_eq_some.mp hlk with ⟨hklen, hkget⟩
  have hk1len : k + 1 < m.mesh_levels.length := hk1
  have hlk1 : m.mesh_levels.get? (k + 1) =
      some (m.mesh_levels.get ⟨k + 1, hk1len⟩) := List.get?_eq_get hk1len
  have hrk : m.levelRatios.getD k 0 = lk.global_h_ratio := by
    rw [levelRatios_getD m k hklen, hkget]
  have hrk1 : m.levelRatios.getD (k + 1) 0 =
      (m.mesh_levels.get ⟨k + 1, hk1len⟩).global_h_ratio :=
    levelRatios_getD m (k + 1) hk1len
  have hlenR : m.levelRatios.length = m.total_levels := levelRatios_length m
  have hadj : m.levelRatios.getD k 0 + eps ≤ m.levelRatios.getD (k + 1) 0 :=
    chain'_getD hgap k (by omega)
  have hlt : lk.global_h_ratio <
      (m.mesh_levels.get ⟨k + 1, hk1len⟩).global_h_ratio := by
    rw [← hrk, ← hrk1]
    linarith
  have hlevel : m.getMeshLevel eps lk.global_h_ratio = some k := by
    apply getMeshLevel_select eps m lk.global_h_ratio k
      (hgap.imp fun a b h => by linarith) (by omega)
    · rw [hrk]
      linarith
    · intro _
      rw [hrk1, ← hrk]
      linarith
  have halpha : ((m.mesh_levels.get ⟨k + 1, hk1len⟩).global_h_ratio -
        lk.global_h_ratio) /
      ((m.mesh_levels.get ⟨k + 1, hk1len⟩).global_h_ratio -
        lk.global_h_ratio) = 1 :=
    div_self (sub_ne_zero.mpr (ne_of_gt hlt))
  constructor
  · rw [MultilevelLevelSet.probeKernelIntegral, hlevel, Option.some_bind, hlk,
      Option.some_bind, hlk1, Option.some_bind]
    simp only [halpha, LevelSet.probeKernelIntegral]
    norm_num
  · rw [MultilevelLevelSet.probeKernelGradientIntegral, hlevel, Option.some_bind,
      hlk, Option.some_bind, hlk1, Option.some_bind]
    simp only [halpha, LevelSet.probeKernelGradientIntegral, vadd, vsmul]
    norm_num

/-- Witness for `probeKernelIntegral_at_level_ratio`: the two-level hierarchy
    with ratios 1 and 2, probed at the coarse level's own ratio 1. -/
theorem probeKernelIntegral_at_level_ratio_witness :
    ((0 : ℚ) < 1 / 4 ∧
        List.Chain' (fun a b => a + (1 : ℚ) / 4 ≤ b) exMultilevel.levelRatios ∧
        0 + 1 < exMultilevel.total_levels ∧
        exMultilevel.mesh_levels.get? 0 = some exLevel0) ∧
      (MultilevelLevelSet.probeKernelIntegral ((1 : ℚ) / 4) exMultilevel (0, 0)
          exLevel0.global_h_ratio =
        some (exLevel0.probeKernelIntegral (0, 0) exLevel0.global_h_ratio) ∧
      MultilevelLevelSet.probeKernelGradientIntegral ((1 : ℚ) / 4) exMultilevel
          (0, 0) exLevel0.global_h_ratio =
        some (exLevel0.probeKernelGradientIntegral (0, 0)
          exLevel0.global_h_ratio)) := by
  have heps : (0 : ℚ) < 1 / 4 := by norm_num
  have hgap : List.Chain' (fun a b => a + (1 : ℚ) / 4 ≤ b)
      exMultilevel.levelRatios := by
    show List.Chain' (fun a b => a + (1 : ℚ) / 4 ≤ b) [(1 : ℚ), 2]
    norm_num [List.chain'_cons]
  have hk1 : 0 + 1 < exMultilevel.total_levels := by
    show 0 + 1 < 2
    norm_num
  have hlk : exMultilevel.mesh_levels.get? 0 = some exLevel0 := rfl
  exact ⟨⟨heps, hgap, hk1, hlk⟩,
    probeKernelIntegral_at_level_ratio ((1 : ℚ) / 4) exMultilevel 0 exLevel0
      (0, 0) heps hgap hk1 hlk⟩

/-- C5 counterexample: at the finest level's own ratio (2, in the two-level
    hierarchy with ratios 1 and 2) the probe does not return the finest
    level's unblended value 20 — it runs off the end of the level sequence
    (modelled `none`). -/
theorem probeKernelIntegral_finest_ratio_cex :
    MultilevelLevelSet.probeKernelIntegral Eps exMultilevel (0, 0)
        exLevel1.global_h_ratio = none ∧
      some (exLevel1.probeKernelIntegral (0, 0) exLevel1.global_h_ratio) =
        some 20 ∧
      MultilevelLevelSet.probeKernelGradientIntegral Eps exMultilevel (0, 0)
        exLevel1.global_h_ratio = none := by
  have hlevel : MultilevelLevelSet.getMeshLevel Eps exMultilevel
      exLevel1.global_h_ratio = some 1 := by
    rw [show MultilevelLevelSet.getMeshLevel Eps exMultilevel
        exLevel1.global_h_ratio =
      (if (2 : ℚ) - 2 > -Eps then some 1
        else if (2 : ℚ) - 1 > -Eps then some 0 else none) from rfl]
    rw [if_pos (by norm_num [Eps])]
  refine ⟨?_, rfl, ?_⟩
  · rw [MultilevelLevelSet.probeKernelIntegral, hlevel, Option.some_bind]
    rfl
  · rw [MultilevelLevelSet.probeKernelGradientIntegral, hlevel, Option.some_bind]
    rfl

/-- C8 exhibit (code bug): a requested ratio at or above the finest level's
    ratio makes `getMeshLevel` return the finest index, so the blending code
    reads `mesh_levels_[coarse_level + 1] = mesh_levels_[total_levels_]`, one
    past the end of the level vector (modelled `none`). -/
theorem probe_next_finer_level_out_of_bounds :
    MultilevelLevelSet.getMeshLevel Eps exMultilevel (5 / 2) = some 1 ∧
      ¬(1 + 1 < exMultilevel.total_levels) ∧
      MultilevelLevelSet.probeKernelIntegral Eps exMultilevel (0, 0) (5 / 2) =
        none := by
  have hlevel : MultilevelLevelSet.getMeshLevel Eps exMultilevel (5 / 2) =
      some 1 := by
    rw [show MultilevelLevelSet.getMeshLevel Eps exMultilevel (5 / 2) =
      (if (5 : ℚ) / 2 - 2 > -Eps then some 1
        else if (5 : ℚ) / 2 - 1 > -Eps then some 0 else none) from rfl]
    rw [if_pos (by norm_num [Eps])]
  refine ⟨hlevel, ?_, ?_⟩
  · show ¬(1 + 1 < 2)
    norm_num
  · rw [MultilevelLevelSet.probeKernelIntegral, hlevel, Option.some_bind]
    rfl

/-- Helper: on the open ramp `-1 < x < 1` the smooth Heaviside expression
    stays within the unit interval, by `sin u ≤ u` on `[0, 2π]` at both
    endpoints. -/
theorem heaviside_ramp_bounds (x : ℝ) (h1 : -1 < x) (h2 : x < 1) :
    0 ≤ (0.5 + 0.5 * x) + 0.5 * Real.sin (Real.pi * x) / Real.pi ∧
      (0.5 + 0.5 * x) + 0.5 * Real.sin (Real.pi * x) / Real.pi ≤ 1 := by
  have hpi : (0 : ℝ) < Real.pi := Real.pi_pos
  have hne : Real.pi ≠ 0 := ne_of_gt hpi
  have hexp : Real.pi * (1 + x) = Real.pi * x + Real.pi := by ring
  have hlo : -(Real.pi * (1 + x)) ≤ Real.sin (Real.pi * x) := by
    have hs : Real.sin (Real.pi * x + Real.pi) ≤ Real.pi * x + Real.pi :=
      Real.sin_le (by nlinarith)
    rw [Real.sin_add_pi] at hs
    linarith
  have hhi : Real.sin (Real.pi * x) ≤ Real.pi * (1 - x) := by
    have hs : Real.sin (Real.pi * (1 - x)) ≤ Real.pi * (1 - x) :=
      Real.sin_le (by nlinarith)
    have hres : Real.pi * (1 - x) = Real.pi - Real.pi * x := by ring
    rw [hres, Real.sin_pi_sub] at hs
    linarith [hs]
  have hsum : Real.pi * (1 + x) + Real.pi * (1 - x) = 2 * Real.pi := by ring
  have h2pi : (0 : ℝ) < 2 * Real.pi := by linarith
  have hform : (0.5 + 0.5 * x) + 0.5 * Real.sin (Real.pi * x) / Real.pi =
      (Real.pi * (1 + x) + Real.sin (Real.pi * x)) / (2 * Real.pi) := by
    field_simp
    ring
  rw [hform]
  constructor
  · apply div_nonneg _ (le_of_lt h2pi)
    linarith
  · rw [div_le_one h2pi]
    linarith

/-- C10 (confirmed): for positive `half_width`, `computeHeaviside` stays in
    the unit interval for every `phi`, returns 0 for every
    `phi ≤ -half_width`, returns 1 for every `phi` strictly above
    `half_width`, and returns 0 (not 1) at `phi = half_width`, where the
    strict ramp condition and the strict saturation condition both fail. -/
theorem computeHeaviside_spec (phi half_width : ℝ) (hw : 0 < half_width) :
    (0 ≤ BaseLevelSet.computeHeaviside phi half_width ∧
        BaseLevelSet.computeHeaviside phi half_width ≤ 1) ∧
      (phi ≤ -half_width → BaseLevelSet.computeHeaviside phi half_width = 0) ∧
      (half_width < phi → BaseLevelSet.computeHeaviside phi half_width = 1) ∧
      BaseLevelSet.computeHeaviside half_width half_width = 0 := by
  have hwne : half_width ≠ 0 := ne_of_gt hw
  refine ⟨?_, ?_, ?_, ?_⟩
  · simp only [BaseLevelSet.computeHeaviside]
    by_cases hsat : phi / half_width > 1
    · rw [if_pos hsat]
      norm_num
    · rw [if_neg hsat]
      by_cases hramp : phi < half_width ∧ -half_width < phi
      · rw [if_pos hramp]
        have hx1 : -1 < phi / half_width := by
          rw [lt_div_iff₀ hw]
          linarith [hramp.2]
        have hx2 : phi / half_width < 1 := (div_lt_one hw).mpr hramp.1
        exact heaviside_ramp_bounds _ hx1 hx2
      · rw [if_neg hramp]
        norm_num
  · intro hneg
    simp only [BaseLevelSet.computeHeaviside]
    have hx : phi / half_width ≤ -1 := by
      rw [div_le_iff₀ hw]
      linarith
    rw [if_neg (by linarith : ¬phi / half_width > 1),
      if_neg (fun hc => absurd hc.2 (by linarith))]
  · intro hgt
    simp only [BaseLevelSet.computeHeaviside]
    have hx : 1 < phi / half_width := (one_lt_div hw).mpr hgt
    rw [if_pos hx]
  · simp only [BaseLevelSet.computeHeaviside]
    rw [div_self hwne]
    rw [if_neg (lt_irrefl 1), if_neg (fun hc => lt_irrefl half_width hc.1)]

/-- Witness for `computeHeaviside_spec` at `phi = 2`, `half_width = 1`. -/
theorem computeHeaviside_spec_witness :
    (0 : ℝ) < 1 ∧
      ((0 ≤ BaseLevelSet.computeHeaviside 2 1 ∧
          BaseLevelSet.computeHeaviside 2 1 ≤ 1) ∧
        ((2 : ℝ) ≤ -1 → BaseLevelSet.computeHeaviside 2 1 = 0) ∧
        ((1 : ℝ) < 2 → BaseLevelSet.computeHeaviside 2 1 = 1) ∧
        BaseLevelSet.computeHeaviside 1 1 = 0) :=
  ⟨by norm_num, computeHeaviside_spec 2 1 (by norm_num)⟩

end SPH
